import Mathlib

/-!
Verification of the task abstraction layer in src/task/task.py.

The numeric model: array entries are exact rationals. Where the source
relies on IEEE non-finite values (the torch.isfinite test in the ant
cost), entries are modelled by the extended type FP below, which adds
NaN and the two infinities to the rationals with the IEEE propagation
rules for the operations the source uses. The numpy float32 cast in the
step and reset wrappers is modelled as an abstract entrywise function
passed as a parameter, and the native simulator of each task (an external
collaborator of this layer) is an abstract state-passing function
parameter.
-/

/-- Round half to even, the rounding of the numpy round method. -/
def roundHalfEven (q : ℚ) : ℤ :=
  let f : ℤ := ⌊q⌋
  let r : ℚ := q - f
  if r < 1/2 then f
  else if 1/2 < r then f + 1
  else if f % 2 = 0 then f else f + 1

/-- Value of numpy round as a rational. -/
def npRound (q : ℚ) : ℚ := (roundHalfEven q : ℚ)

/-- Scalar numpy clip: lower bound applied first, then the upper bound. -/
def npClip (x lo hi : ℚ) : ℚ := min (max x lo) hi

/-- Truncation toward zero, the conversion performed by an astype cast to
an integer dtype. -/
def truncToInt (q : ℚ) : ℤ := if 0 ≤ q then ⌊q⌋ else ⌈q⌉

/-- The gym action space kinds the normalizer distinguishes: Box,
Discrete with cardinality n, MultiBinary, MultiDiscrete with per-dimension
cardinalities nvec, the absent space (action_space is None), and any
other space kind. -/
inductive ActionSpace where
  | box
  | discrete (n : ℕ)
  | multiBinary
  | multiDiscrete (nvec : List ℕ)
  | null
  | other
deriving DecidableEq

/-- Errors raised by this layer: the NotImplementedError of the
normalizer's fallback branch (the spec names it UnsupportedActionSpace),
and the Python TypeError produced by unpacking a bad argument. -/
inductive Err where
  | unsupportedActionSpace
  | typeError
deriving DecidableEq

/-- The normalization applied to one entry for a Discrete space of
cardinality n: np.clip(x.round(), 0, n - 1).astype(int). -/
def discreteReformat (n : ℕ) (x : ℚ) : ℚ :=
  ((truncToInt (npClip (npRound x) 0 ((n : ℚ) - 1)) : ℤ) : ℚ)

/-- The normalization applied to one entry for a MultiBinary space:
np.clip(x.round(), 0, 1).astype(dtype), with the integer dtype of the
space. -/
def multiBinaryReformat (x : ℚ) : ℚ :=
  ((truncToInt (npClip (npRound x) 0 1) : ℤ) : ℚ)

/-- One entry of the MultiDiscrete normalization, for dimension
cardinality m: np.clip(x.round(), 0, m - 1).astype(dtype). -/
def multiDiscreteReformat (m : ℕ) (x : ℚ) : ℚ :=
  ((truncToInt (npClip (npRound x) 0 ((m : ℚ) - 1)) : ℤ) : ℚ)

/-- Task.reformat_action from src/task/task.py. A Box action is cast to
the dtype of the space (value preserving in the exact-rational model), a
Discrete action is rounded, clipped into [0, n-1] and cast to int, a
MultiBinary action is rounded, clipped into [0, 1] and cast to the space
dtype, a MultiDiscrete action is rounded and clipped entrywise against
nvec - 1 then cast to the space dtype, an absent space passes the action
through, and every other space kind raises. -/
def Task.reformat_action (space : ActionSpace) (action : List ℚ) :
    Except Err (List ℚ) :=
  match space with
  | .box => .ok action
  | .discrete n => .ok (action.map (discreteReformat n))
  | .multiBinary => .ok (action.map multiBinaryReformat)
  | .multiDiscrete nvec =>
      .ok (List.zipWith (fun x m => multiDiscreteReformat m x) action nvec)
  | .null => .ok action
  | .other => .error .unsupportedActionSpace

/-- Result of a native single-instance simulator step: next state,
reward, done flag. -/
structure StepOut where
  next : List ℚ
  reward : ℚ
  done : Bool
deriving DecidableEq

/-- Task.step from src/task/task.py: normalize the action, delegate to
the native step of the simulator (modelled as the state-passing function
native), and cast the returned state to float32 (modelled by the
entrywise function f32). -/
def Task.step {σ : Type} (space : ActionSpace) (f32 : ℚ → ℚ)
    (native : σ → List ℚ → σ × StepOut) (s : σ) (action : List ℚ) :
    Except Err (σ × StepOut) :=
  match Task.reformat_action space action with
  | .error e => .error e
  | .ok a1 =>
      let r := native s a1
      .ok (r.1, { r.2 with next := r.2.next.map f32 })

/-- Task.reset from src/task/task.py: delegate to the native reset and
cast the returned state to float32. -/
def Task.reset {σ : Type} (f32 : ℚ → ℚ) (native : σ → σ × List ℚ)
    (s : σ) : σ × List ℚ :=
  let r := native s
  (r.1, r.2.map f32)

/-- Entrywise numpy clip of a vector against low and high bound vectors. -/
def clipVec : List ℚ → List ℚ → List ℚ → List ℚ
  | x :: xs, lo :: los, hi :: his => npClip x lo hi :: clipVec xs los his
  | _, _, _ => []

/-- MujocoTask.step from src/task/task.py: normalize the action, clip it
entrywise into the declared action bounds when an action space is
declared (the Python truthiness test on action_space fails only for
None), delegate to the native step, and cast the returned state to
float32. -/
def MujocoTask.step {σ : Type} (space : ActionSpace) (low high : List ℚ)
    (f32 : ℚ → ℚ) (native : σ → List ℚ → σ × StepOut) (s : σ)
    (action : List ℚ) : Except Err (σ × StepOut) :=
  match Task.reformat_action space action with
  | .error e => .error e
  | .ok a1 =>
      let a2 := match space with
        | .null => a1
        | _ => clipVec a1 low high
      let r := native s a2
      .ok (r.1, { r.2 with next := r.2.next.map f32 })

/-- Extended numeric value: a rational, NaN, or a signed infinity. Used
where the source tests torch.isfinite. -/
inductive FP where
  | fin : ℚ → FP
  | nan : FP
  | inf : FP
  | ninf : FP
deriving DecidableEq

/-- IEEE negation on extended values. -/
def FP.neg : FP → FP
  | .fin q => .fin (-q)
  | .nan => .nan
  | .inf => .ninf
  | .ninf => .inf

/-- IEEE addition on extended values: NaN propagates, opposite
infinities give NaN, an infinity absorbs finite values. -/
def FP.add : FP → FP → FP
  | .nan, _ => .nan
  | _, .nan => .nan
  | .inf, .ninf => .nan
  | .ninf, .inf => .nan
  | .inf, _ => .inf
  | _, .inf => .inf
  | .ninf, _ => .ninf
  | _, .ninf => .ninf
  | .fin a, .fin b => .fin (a + b)

/-- IEEE subtraction on extended values. -/
def FP.sub (x y : FP) : FP := x.add y.neg

/-- IEEE multiplication on extended values: NaN propagates, infinity
times zero gives NaN, otherwise signs combine. -/
def FP.mul : FP → FP → FP
  | .nan, _ => .nan
  | _, .nan => .nan
  | .fin a, .fin b => .fin (a * b)
  | .inf, .inf => .inf
  | .inf, .ninf => .ninf
  | .ninf, .inf => .ninf
  | .ninf, .ninf => .inf
  | .inf, .fin b => if 0 < b then .inf else if b < 0 then .ninf else .nan
  | .fin a, .inf => if 0 < a then .inf else if a < 0 then .ninf else .nan
  | .ninf, .fin b => if 0 < b then .ninf else if b < 0 then .inf else .nan
  | .fin a, .ninf => if 0 < a then .ninf else if a < 0 then .inf else .nan

/-- Division of an extended value by the simulator timestep dt, a
positive rational constant in every Mujoco task. -/
def FP.divPos (x : FP) (c : ℚ) : FP :=
  match x with
  | .fin q => .fin (q / c)
  | .nan => .nan
  | .inf => .inf
  | .ninf => .ninf

/-- The torch.isfinite test on one extended value. -/
def FP.isFinite : FP → Bool
  | .fin _ => true
  | _ => false

/-- Comparison of an extended value against a rational constant, with
the IEEE convention that every comparison involving NaN is false. -/
def FP.geC (x : FP) (c : ℚ) : Bool :=
  match x with
  | .fin q => decide (c ≤ q)
  | .nan => false
  | .inf => true
  | .ninf => false

/-- Comparison of an extended value against a rational constant, with
the IEEE convention that every comparison involving NaN is false. -/
def FP.leC (x : FP) (c : ℚ) : Bool :=
  match x with
  | .fin q => decide (q ≤ c)
  | .nan => false
  | .inf => false
  | .ninf => true

/-- Sum of a list of extended values, folded from zero as a tensor sum. -/
def FP.sumList (l : List FP) : FP := l.foldl FP.add (.fin 0)

/-- Pointwise application of a three-argument function to three lists,
truncating at the shortest, as elementwise tensor arithmetic on batches
of equal length. -/
def zipWith3 {α β γ δ : Type} (f : α → β → γ → δ) :
    List α → List β → List γ → List δ
  | a :: as, b :: bs, c :: cs => f a b c :: zipWith3 f as bs cs
  | _, _, _ => []

/-- Cost of one row of the ant batch, from state row, action row and
next-state row: the negated reward (xafter - xbefore) / dt
- 0.5 * sum of squared action entries + 1.0. -/
def antCostRow (dt : ℚ) (s a n : List FP) : FP :=
  let xposbefore := s.getD 0 (.fin 0)
  let xposafter := n.getD 0 (.fin 0)
  let forwardReward := (xposafter.sub xposbefore).divPos dt
  let ctrlCost := (FP.fin (1/2)).mul (FP.sumList (a.map (fun x => x.mul x)))
  let survive := FP.fin 1
  ((forwardReward.sub ctrlCost).add survive).neg

/-- Done flag of one row of the ant batch: the row survives when every
entry is finite and the torso height (column 2) lies in [0.2, 1.0]. -/
def antDoneRow (n : List FP) : ℚ :=
  let notdone := n.all FP.isFinite && (n.getD 2 (.fin 0)).geC (1/5)
    && (n.getD 2 (.fin 0)).leC 1
  if notdone then 0 else 1

/-- AntTask.get_cost from src/task/task.py, on a batch given as lists of
rows: cost is the negated per-row reward and done is the [N,1] column of
indicators of non-surviving rows. -/
def AntTask.get_cost (dt : ℚ) (state action next : List (List FP)) :
    List FP × List (List ℚ) :=
  (zipWith3 (antCostRow dt) state action next,
   next.map (fun n => [antDoneRow n]))

/-- Done flag of one cart-pole row: position (column 0) or angle
(column 2) strictly outside the closed threshold interval. -/
def cartPoleDoneRow (xth thth : ℚ) (n : List ℚ) : ℚ :=
  let x := n.getD 0 0
  let theta := n.getD 2 0
  if x < -xth ∨ xth < x ∨ theta < -thth ∨ thth < theta then 1 else 0

/-- CartPoleTask.get_cost from src/task/task.py: done is 1 on threshold
violation of the next state, cost is done - 1.0, and done is returned as
an [N,1] column. -/
def CartPoleTask.get_cost (xth thth : ℚ)
    (state action next : List (List ℚ)) : List ℚ × List (List ℚ) :=
  let dones := next.map (cartPoleDoneRow xth thth)
  (dones.map (fun d => d - 1), dones.map (fun d => [d]))

/-- HalfCheetahTask.get_cost from src/task/task.py: cost is the negated
sum of control reward -0.1 * sum of squared action entries and run
reward (xafter - xbefore) / dt; done is the zero [N,1] column of length
len(state). -/
def HalfCheetahTask.get_cost (dt : ℚ)
    (state action next : List (List ℚ)) : List ℚ × List (List ℚ) :=
  let costs := zipWith3 (fun (s a n : List ℚ) =>
    let rewardCtrl := -(1/10) * (a.map (fun x => x * x)).sum
    let rewardRun := (n.getD 0 0 - s.getD 0 0) / dt
    Neg.neg (rewardCtrl + rewardRun)) state action next
  (costs, List.replicate state.length [0])

/-- SwimmerTask.get_cost from src/task/task.py: cost is the negated sum
of forward reward (xafter - xbefore) / dt and control reward
-0.0001 * sum of squared action entries; done is the zero [N,1] column
of length len(state). -/
def SwimmerTask.get_cost (dt : ℚ)
    (state action next : List (List ℚ)) : List ℚ × List (List ℚ) :=
  let costs := zipWith3 (fun (s a n : List ℚ) =>
    let rewardFwd := (n.getD 0 0 - s.getD 0 0) / dt
    let rewardCtrl := -(1/10000) * (a.map (fun x => x * x)).sum
    Neg.neg (rewardFwd + rewardCtrl)) state action next
  (costs, List.replicate state.length [0])

/-- CartPoleTask.get_reset_state from src/task/task.py: an n by 4 matrix
of samples; u abstracts the uniform sampler on [-0.05, 0.05], giving the
entry at row i, column j. -/
def CartPoleTask.get_reset_state (n : ℕ) (u : ℕ → ℕ → ℚ) :
    List (List ℚ) :=
  (List.range n).map (fun i => (List.range 4).map (u i))

/-- AntTask.get_reset_state from src/task/task.py: each row concatenates
init_qpos plus uniform noise on [-0.1, 0.1] (sampler u) with init_qvel
plus 0.1 times Gaussian noise (sampler g); the tensor addition
broadcasts the init vectors over the n rows. -/
def AntTask.get_reset_state (initQpos initQvel : List ℚ) (n : ℕ)
    (u g : ℕ → ℕ → ℚ) : List (List ℚ) :=
  (List.range n).map (fun i =>
    List.zipWith (fun q0 e => q0 + e) initQpos
      ((List.range initQpos.length).map (u i)) ++
    List.zipWith (fun v0 e => v0 + e * (1/10)) initQvel
      ((List.range initQvel.length).map (g i)))

/-- HalfCheetahTask.get_reset_state from src/task/task.py: identical in
shape to the ant sampler (uniform position noise, scaled Gaussian
velocity noise). -/
def HalfCheetahTask.get_reset_state (initQpos initQvel : List ℚ) (n : ℕ)
    (u g : ℕ → ℕ → ℚ) : List (List ℚ) :=
  (List.range n).map (fun i =>
    List.zipWith (fun q0 e => q0 + e) initQpos
      ((List.range initQpos.length).map (u i)) ++
    List.zipWith (fun v0 e => v0 + e * (1/10)) initQvel
      ((List.range initQvel.length).map (g i)))

/-- SwimmerTask.get_reset_state from src/task/task.py: uniform noise on
[-0.1, 0.1] (samplers u and v) added to both init_qpos and init_qvel. -/
def SwimmerTask.get_reset_state (initQpos initQvel : List ℚ) (n : ℕ)
    (u v : ℕ → ℕ → ℚ) : List (List ℚ) :=
  (List.range n).map (fun i =>
    List.zipWith (fun q0 e => q0 + e) initQpos
      ((List.range initQpos.length).map (u i)) ++
    List.zipWith (fun v0 e => v0 + e) initQvel
      ((List.range initQvel.length).map (v i)))

/-- Internal generalized-coordinate state of a Mujoco simulator:
positions qpos and velocities qvel. -/
structure MjState where
  qpos : List ℚ
  qvel : List ℚ
deriving DecidableEq

/-- MujocoTask.set_new_state from src/task/task.py: split the flat state
vector at the model position dimension nq and write the two slices
(state[:nq] and state[nq:nq+nv]) into the simulator state via set_state. -/
def MujocoTask.set_new_state (nq nv : ℕ) (state : List ℚ) : MjState :=
  { qpos := state.take nq, qvel := (state.drop nq).take nv }

/-- The observation composition of MujocoTask from src/task/task.py:
concatenation of the flattened generalized positions and velocities. -/
def MujocoTask.get_obs (s : MjState) : List ℚ :=
  s.qpos ++ s.qvel

/-- A Python argument value as passed to CartPoleTask.step: either a
non-iterable scalar or a sequence of entries. -/
inductive PyArg where
  | scalar (q : ℚ)
  | seq (l : List ℚ)
deriving DecidableEq

/-- CartPoleTask.step from src/task/task.py. The call
reformat_action(*action) unpacks the action argument: a non-iterable
scalar raises TypeError at the call, a sequence whose length is not 1
gives reformat_action a wrong argument count and raises TypeError, and a
one-element sequence has its element normalized against the Discrete(n)
action space of CartPoleEnv (n = 2 in gym). The native step result has
its reward replaced by 0 when done holds, and the next state is cast to
float32. -/
def CartPoleTask.step {σ : Type} (n : ℕ) (f32 : ℚ → ℚ)
    (native : σ → ℚ → σ × StepOut) (s : σ) (action : PyArg) :
    Except Err (σ × StepOut) :=
  match action with
  | .scalar _ => .error .typeError
  | .seq [a] =>
      let a1 := discreteReformat n a
      let r := native s a1
      .ok (r.1, { next := r.2.next.map f32,
                  reward := if r.2.done then 0 else r.2.reward,
                  done := r.2.done })
  | .seq _ => .error .typeError

/-- Membership of an extended value in a closed rational interval: NaN
and the infinities lie in no interval. -/
def FP.inIccB (x : FP) (lo hi : ℚ) : Bool :=
  match x with
  | .fin q => decide (lo ≤ q ∧ q ≤ hi)
  | _ => false

/-- An astype cast to an integer dtype is the identity on values that
are already integers. -/
theorem truncToInt_intCast (k : ℤ) : truncToInt ((k : ℤ) : ℚ) = k := by
  unfold truncToInt
  split <;> simp

/-- Numpy clip at integer arguments is the integer clamp. -/
theorem npClip_intCast (r lo hi : ℤ) :
    npClip ((r : ℤ) : ℚ) ((lo : ℤ) : ℚ) ((hi : ℤ) : ℚ) =
      ((min (max r lo) hi : ℤ) : ℚ) := by
  unfold npClip
  push_cast
  rfl

/-- The round-clip-cast pipeline of the normalizer, at a nonnegative
integer upper bound, is the integer clamp of the rounded value into
[0, hi]. -/
theorem reformat_entry_eq (x : ℚ) (hi : ℤ) (h : 0 ≤ hi) :
    ((truncToInt (npClip (npRound x) 0 ((hi : ℤ) : ℚ)) : ℤ) : ℚ) =
      ((max 0 (min (roundHalfEven x) hi) : ℤ) : ℚ) := by
  have h0 : (0 : ℚ) = ((0 : ℤ) : ℚ) := by norm_num
  unfold npRound
  rw [h0, npClip_intCast, truncToInt_intCast]
  congr 1
  omega

/-- The Discrete branch of the normalizer is the integer clamp into
[0, n-1] of the rounded entry. -/
theorem discreteReformat_eq (n : ℕ) (hn : 0 < n) (x : ℚ) :
    discreteReformat n x =
      ((max 0 (min (roundHalfEven x) ((n : ℤ) - 1)) : ℤ) : ℚ) := by
  unfold discreteReformat
  have hb : ((n : ℚ) - 1) = (((n : ℤ) - 1 : ℤ) : ℚ) := by push_cast; ring
  rw [hb, reformat_entry_eq x ((n : ℤ) - 1) (by omega)]

/-- The MultiBinary branch of the normalizer is the integer clamp into
[0, 1] of the rounded entry. -/
theorem multiBinaryReformat_eq (x : ℚ) :
    multiBinaryReformat x = ((max 0 (min (roundHalfEven x) 1) : ℤ) : ℚ) := by
  unfold multiBinaryReformat
  have hb : (1 : ℚ) = ((1 : ℤ) : ℚ) := by norm_num
  rw [hb, reformat_entry_eq x 1 (by omega)]

/-- The MultiDiscrete branch of the normalizer clamps each dimension
independently against its own cardinality. -/
theorem multiDiscrete_zip_eq (a : List ℚ) (nvec : List ℕ)
    (h : ∀ m ∈ nvec, 0 < m) :
    List.zipWith (fun x m => multiDiscreteReformat m x) a nvec =
      List.zipWith
        (fun x (m : ℕ) =>
          ((max 0 (min (roundHalfEven x) ((m : ℤ) - 1)) : ℤ) : ℚ)) a nvec := by
  induction a generalizing nvec with
  | nil => simp
  | cons x xs ih =>
    cases nvec with
    | nil => simp
    | cons m ms =>
      simp only [List.zipWith]
      refine congrArg₂ _ ?_ (ih ms (fun k hk => h k (List.mem_cons_of_mem _ hk)))
      have hm : 0 < m := h m (List.mem_cons_self m ms)
      unfold multiDiscreteReformat
      have hb : ((m : ℚ) - 1) = (((m : ℤ) - 1 : ℤ) : ℚ) := by push_cast; ring
      rw [hb, reformat_entry_eq x ((m : ℤ) - 1) (by omega)]

/-- C1: reformat_action returns, for a Box space, the action with its
values unchanged (no clamping); for a Discrete space of cardinality n,
the action rounded to the nearest integer, clamped into [0, n-1] and
cast to integer; for a MultiBinary space, the action rounded, clamped
into [0, 1] and cast to the space dtype; for a MultiDiscrete space, the
action rounded and clamped entrywise, dimension i independently into
[0, nvec_i - 1], and cast to the space dtype; and for an undefined
(None) space, the action unchanged. -/
theorem C1_reformat_action_spec (a : List ℚ) (n : ℕ) (nvec : List ℕ)
    (hn : 0 < n) (hvec : ∀ m ∈ nvec, 0 < m) :
    Task.reformat_action .box a = .ok a ∧
    Task.reformat_action (.discrete n) a =
      .ok (a.map (fun x =>
        ((max 0 (min (roundHalfEven x) ((n : ℤ) - 1)) : ℤ) : ℚ))) ∧
    Task.reformat_action .multiBinary a =
      .ok (a.map (fun x => ((max 0 (min (roundHalfEven x) 1) : ℤ) : ℚ))) ∧
    Task.reformat_action (.multiDiscrete nvec) a =
      .ok (List.zipWith
        (fun x (m : ℕ) =>
          ((max 0 (min (roundHalfEven x) ((m : ℤ) - 1)) : ℤ) : ℚ)) a nvec) ∧
    Task.reformat_action .null a = .ok a := by
  refine ⟨rfl, ?_, ?_, ?_, rfl⟩
  · simp only [Task.reformat_action]
    congr 1
    exact List.map_congr_left (fun x _ => discreteReformat_eq n hn x)
  · simp only [Task.reformat_action]
    congr 1
    exact List.map_congr_left (fun x _ => multiBinaryReformat_eq x)
  · simp only [Task.reformat_action]
    congr 1
    exact multiDiscrete_zip_eq a nvec hvec

/-- Witness for C1 at concrete inputs: with the action [3.5, -1, 2.5],
the Discrete(3) space gives [2, 0, 2] (half-to-even round then clamp),
MultiBinary gives [1, 0, 1], MultiDiscrete [5, 1] gives [4, 0] with each
dimension clamped to its own bound, and Box passes values through. -/
theorem C1_reformat_action_spec_witness :
    0 < 3 ∧
    Task.reformat_action (.discrete 3) [7/2, -1, 5/2] = .ok [2, 0, 2] ∧
    Task.reformat_action .multiBinary [7/2, -1, 5/2] = .ok [1, 0, 1] ∧
    Task.reformat_action (.multiDiscrete [5, 1]) [7/2, -1, 5/2] =
      .ok [4, 0] ∧
    Task.reformat_action .box [7/2, -1, 5/2] = .ok [7/2, -1, 5/2] := by
  obtain ⟨hbox, hd, hmb, hmd, hnull⟩ :=
    C1_reformat_action_spec [7/2, -1, 5/2] 3 [5, 1] (by norm_num)
      (by decide)
  have r1 : roundHalfEven (7/2 : ℚ) = 4 := by unfold roundHalfEven; norm_num
  have r2 : roundHalfEven (-1 : ℚ) = -1 := by unfold roundHalfEven; norm_num
  have r3 : roundHalfEven (5/2 : ℚ) = 2 := by unfold roundHalfEven; norm_num
  refine ⟨by norm_num, ?_, ?_, ?_, hbox⟩
  · rw [hd]
    norm_num [r1, r2, r3]
  · rw [hmb]
    norm_num [r1, r2, r3]
  · rw [hmd]
    norm_num [r1, r2, r3, List.zipWith]

/-- C8: for every action-space kind other than the five supported ones,
reformat_action fails with the unsupported-action-space error, distinct
from the other error of the layer, and the failure propagates uncaught
through the step wrappers for every native simulator. -/
theorem C8_unsupported_space_error {σ : Type} (a : List ℚ) (f32 : ℚ → ℚ)
    (native : σ → List ℚ → σ × StepOut) (s : σ) (low high : List ℚ) :
    Task.reformat_action .other a = .error .unsupportedActionSpace ∧
    Err.unsupportedActionSpace ≠ Err.typeError ∧
    Task.step .other f32 native s a = .error .unsupportedActionSpace ∧
    MujocoTask.step .other low high f32 native s a =
      .error .unsupportedActionSpace :=
  ⟨rfl, by decide, rfl, rfl⟩

/-- C2: the single-instance step first normalizes the action via
reformat_action and delegates to the native simulator step, returning
the next state cast entrywise to float32; the articulated-body step
additionally clips the normalized action entrywise into the declared
[low, high] bounds before delegating; reset returns the native reset
state cast to float32. -/
theorem C2_step_pipeline {σ : Type} (space : ActionSpace) (f32 : ℚ → ℚ)
    (native : σ → List ℚ → σ × StepOut) (nativeReset : σ → σ × List ℚ)
    (s : σ) (a a1 low high : List ℚ)
    (h : Task.reformat_action space a = .ok a1) :
    Task.step space f32 native s a =
      .ok ((native s a1).1,
        { next := (native s a1).2.next.map f32,
          reward := (native s a1).2.reward,
          done := (native s a1).2.done }) ∧
    (space ≠ .null →
      MujocoTask.step space low high f32 native s a =
        .ok ((native s (clipVec a1 low high)).1,
          { next := (native s (clipVec a1 low high)).2.next.map f32,
            reward := (native s (clipVec a1 low high)).2.reward,
            done := (native s (clipVec a1 low high)).2.done })) ∧
    Task.reset f32 nativeReset s =
      ((nativeReset s).1, (nativeReset s).2.map f32) := by
  refine ⟨?_, ?_, rfl⟩
  · simp [Task.step, h]
  · intro hne
    cases space <;> simp_all [MujocoTask.step]

/-- Witness for C2: with a Box space, bounds [-1, 1] and an echoing
native simulator, the action [5, -7] is passed through normalization
unchanged, clipped to [1, -1] by the articulated-body step, and the
reset state is passed through the float32 cast. -/
theorem C2_step_pipeline_witness :
    Task.reformat_action .box [5, -7] = .ok [5, -7] ∧
    Task.step .box id (fun (_ : Unit) l => ((), ⟨l, 3, false⟩)) ()
      [5, -7] = .ok ((), ⟨[5, -7], 3, false⟩) ∧
    MujocoTask.step .box [-1, -1] [1, 1] id
      (fun (_ : Unit) l => ((), ⟨l, 3, false⟩)) () [5, -7] =
      .ok ((), ⟨[1, -1], 3, false⟩) ∧
    Task.reset id (fun (_ : Unit) => ((), [2])) () = ((), [2]) := by
  obtain ⟨h1, h2, h3⟩ :=
    C2_step_pipeline .box id (fun (_ : Unit) l => ((), ⟨l, 3, false⟩))
      (fun (_ : Unit) => ((), [2])) () [5, -7] [5, -7] [-1, -1] [1, 1] rfl
  have hc : clipVec [5, -7] [-1, -1] [1, 1] = [1, -1] := by
    simp [clipVec, npClip]
  refine ⟨rfl, ?_, ?_, ?_⟩
  · rw [h1]
    simp
  · rw [h2 (by simp), hc]
    simp
  · rw [h3]
    simp

/-- C9: in the cart-pole single-step path, whenever the native step
reports done, the returned reward is 0. -/
theorem C9_cartpole_zero_reward_on_done {σ : Type} (n : ℕ) (f32 : ℚ → ℚ)
    (native : σ → ℚ → σ × StepOut) (s : σ) (a : ℚ)
    (h : (native s (discreteReformat n a)).2.done = true) :
    CartPoleTask.step n f32 native s (.seq [a]) =
      .ok ((native s (discreteReformat n a)).1,
        { next := (native s (discreteReformat n a)).2.next.map f32,
          reward := 0,
          done := true }) := by
  simp [CartPoleTask.step, h]

/-- Witness for C9: a native step that terminates with reward 5 has its
reward replaced by 0. -/
theorem C9_cartpole_zero_reward_on_done_witness :
    ((fun (_ : Unit) (_ : ℚ) => ((), StepOut.mk [1] 5 true)) ()
      (discreteReformat 2 1)).2.done = true ∧
    CartPoleTask.step 2 id
      (fun (_ : Unit) (_ : ℚ) => ((), StepOut.mk [1] 5 true)) ()
      (.seq [1]) = .ok ((), StepOut.mk [1] 0 true) := by
  refine ⟨rfl, ?_⟩
  have h := C9_cartpole_zero_reward_on_done 2 id
    (fun (_ : Unit) (_ : ℚ) => ((), StepOut.mk [1] 5 true)) () 1 rfl
  rw [h]
  simp

/-- C10: the cart-pole step unpacks its action argument into
reformat_action. A non-iterable scalar fails with TypeError for every
native simulator, before any stepping; a sequence whose length is not 1
likewise fails; a one-element sequence has its element (not the
sequence) normalized against the Discrete space and stepped. The base
step, by contrast, passes the whole action vector to the normalizer. -/
theorem C10_cartpole_action_unpack {σ : Type} (n : ℕ) (f32 : ℚ → ℚ)
    (q a : ℚ) (l : List ℚ) (hl : l.length ≠ 1) :
    (∀ (native : σ → ℚ → σ × StepOut) (s : σ),
      CartPoleTask.step n f32 native s (.scalar q) = .error .typeError) ∧
    (∀ (native : σ → ℚ → σ × StepOut) (s : σ),
      CartPoleTask.step n f32 native s (.seq l) = .error .typeError) ∧
    (∀ (native : σ → ℚ → σ × StepOut) (s : σ),
      CartPoleTask.step n f32 native s (.seq [a]) =
        .ok ((native s (discreteReformat n a)).1,
          { next := (native s (discreteReformat n a)).2.next.map f32,
            reward := if (native s (discreteReformat n a)).2.done then 0
              else (native s (discreteReformat n a)).2.reward,
            done := (native s (discreteReformat n a)).2.done })) := by
  refine ⟨fun native s => rfl, fun native s => ?_, fun native s => rfl⟩
  match l, hl with
  | [], _ => rfl
  | x :: y :: rest, _ => rfl
  | [x], h => exact absurd rfl h

/-- Witness for C10: with the two-element action sequence [1, 2] and a
scalar action 7, the cart-pole step fails with TypeError; with the
one-element sequence [5], the element is normalized to 1 under
Discrete(2) and stepped. -/
theorem C10_cartpole_action_unpack_witness :
    ([1, 2] : List ℚ).length ≠ 1 ∧
    CartPoleTask.step 2 id
      (fun (_ : Unit) (x : ℚ) => ((), StepOut.mk [x] 1 false)) ()
      (.scalar 7) = .error .typeError ∧
    CartPoleTask.step 2 id
      (fun (_ : Unit) (x : ℚ) => ((), StepOut.mk [x] 1 false)) ()
      (.seq [1, 2]) = .error .typeError ∧
    CartPoleTask.step 2 id
      (fun (_ : Unit) (x : ℚ) => ((), StepOut.mk [x] 1 false)) ()
      (.seq [5]) = .ok ((), StepOut.mk [1] 1 false) := by
  obtain ⟨h1, h2, h3⟩ :=
    C10_cartpole_action_unpack (σ := Unit) 2 id 7 5 [1, 2] (by simp)
  refine ⟨by simp, h1 _ (), h2 _ (), ?_⟩
  rw [h3 _ ()]
  have hr : discreteReformat 2 5 = 1 := by
    rw [discreteReformat_eq 2 (by norm_num) 5]
    have : roundHalfEven (5 : ℚ) = 5 := by unfold roundHalfEven; norm_num
    rw [this]
    norm_num
  rw [hr]
  simp

/-- The cart-pole per-row done indicator fires exactly when position or
angle lies outside its closed threshold interval. -/
theorem cartPoleDoneRow_eq (xth thth : ℚ) (row : List ℚ) :
    cartPoleDoneRow xth thth row =
      if ¬(-xth ≤ row.getD 0 0 ∧ row.getD 0 0 ≤ xth) ∨
         ¬(-thth ≤ row.getD 2 0 ∧ row.getD 2 0 ≤ thth) then 1 else 0 := by
  unfold cartPoleDoneRow
  refine if_congr ?_ rfl rfl
  simp only [not_and_or, not_le]
  tauto

/-- C3: the cart-pole batched cost returns one done row [d] per
next-state row, with d = 1 exactly when column 0 lies outside
[-x_threshold, x_threshold] or column 2 lies outside
[-theta_threshold_radians, theta_threshold_radians], and cost d - 1; in
particular with x_threshold 0.2 the row [0.3, _, 0, _] gives done 1 and
cost 0, and the zero row gives done 0 and cost -1. -/
theorem C3_cartpole_cost_done (xth thth : ℚ)
    (state action next : List (List ℚ)) (hth : 0 ≤ thth) :
    CartPoleTask.get_cost xth thth state action next =
      (next.map (fun row =>
        (if ¬(-xth ≤ row.getD 0 0 ∧ row.getD 0 0 ≤ xth) ∨
            ¬(-thth ≤ row.getD 2 0 ∧ row.getD 2 0 ≤ thth)
         then (1 : ℚ) else 0) - 1),
       next.map (fun row =>
        [if ¬(-xth ≤ row.getD 0 0 ∧ row.getD 0 0 ≤ xth) ∨
            ¬(-thth ≤ row.getD 2 0 ∧ row.getD 2 0 ≤ thth)
         then (1 : ℚ) else 0])) ∧
    CartPoleTask.get_cost (1/5) thth [[0, 0, 0, 0]] [] [[3/10, 0, 0, 0]] =
      ([0], [[1]]) ∧
    CartPoleTask.get_cost (1/5) thth [[0, 0, 0, 0]] [] [[0, 0, 0, 0]] =
      ([-1], [[0]]) := by
  refine ⟨?_, ?_, ?_⟩
  · unfold CartPoleTask.get_cost
    simp only [List.map_map, Prod.mk.injEq]
    constructor <;>
      exact List.map_congr_left (fun row _ => by
        simp [Function.comp, cartPoleDoneRow_eq])
  · unfold CartPoleTask.get_cost
    simp only [List.map, cartPoleDoneRow, List.getD]
    norm_num
  · unfold CartPoleTask.get_cost
    simp only [List.map, cartPoleDoneRow, List.getD]
    have h1 : ¬((0 : ℚ) < -thth) := by linarith
    have h2 : ¬(thth < (0 : ℚ)) := by linarith
    norm_num [h1, h2]

/-- Witness for C3 at the spec examples, with both thresholds 0.2. -/
theorem C3_cartpole_cost_done_witness :
    0 ≤ (1/5 : ℚ) ∧
    CartPoleTask.get_cost (1/5) (1/5) [[0, 0, 0, 0]] [] [[3/10, 0, 0, 0]] =
      ([0], [[1]]) ∧
    CartPoleTask.get_cost (1/5) (1/5) [[0, 0, 0, 0]] [] [[0, 0, 0, 0]] =
      ([-1], [[0]]) := by
  obtain ⟨h1, h2, h3⟩ :=
    C3_cartpole_cost_done (1/5) (1/5) [] [] [] (by norm_num)
  exact ⟨by norm_num, h2, h3⟩

/-- C5: the half-cheetah and swimmer batched costs return the all-zero
done column for every input batch, of length the number of batch rows. -/
theorem C5_cheetah_swimmer_never_done (dt : ℚ)
    (state action next : List (List ℚ)) :
    (HalfCheetahTask.get_cost dt state action next).2 =
      List.replicate state.length [0] ∧
    (SwimmerTask.get_cost dt state action next).2 =
      List.replicate state.length [0] :=
  ⟨rfl, rfl⟩

/-- C6: every reset-state sampler returns exactly n rows of the task's
fixed per-row dimensionality: 4 for cart-pole, and position dimension
plus velocity dimension for the articulated-body tasks. The samplers are
pure functions of the noise sources and touch no simulator state. -/
theorem C6_reset_state_shape (n : ℕ) (u g : ℕ → ℕ → ℚ)
    (initQpos initQvel : List ℚ) :
    (CartPoleTask.get_reset_state n u).length = n ∧
    (CartPoleTask.get_reset_state n u).map List.length =
      List.replicate n 4 ∧
    (AntTask.get_reset_state initQpos initQvel n u g).length = n ∧
    (AntTask.get_reset_state initQpos initQvel n u g).map List.length =
      List.replicate n (initQpos.length + initQvel.length) ∧
    (HalfCheetahTask.get_reset_state initQpos initQvel n u g).length = n ∧
    (HalfCheetahTask.get_reset_state initQpos initQvel n u g).map
      List.length = List.replicate n (initQpos.length + initQvel.length) ∧
    (SwimmerTask.get_reset_state initQpos initQvel n u g).length = n ∧
    (SwimmerTask.get_reset_state initQpos initQvel n u g).map
      List.length = List.replicate n (initQpos.length + initQvel.length) := by
  refine ⟨by simp [CartPoleTask.get_reset_state], ?_,
    by simp [AntTask.get_reset_state], ?_,
    by simp [HalfCheetahTask.get_reset_state], ?_,
    by simp [SwimmerTask.get_reset_state], ?_⟩ <;>
  simp [CartPoleTask.get_reset_state, AntTask.get_reset_state,
    HalfCheetahTask.get_reset_state, SwimmerTask.get_reset_state,
    List.map_map, Function.comp_def, List.map_const']

/-- C7: writing a flat state of length nq + nv into the simulator with
set_new_state and reading back the composed observation (position and
velocity concatenation) reproduces the state exactly. -/
theorem C7_set_state_roundtrip (nq nv : ℕ) (state : List ℚ)
    (h : state.length = nq + nv) :
    MujocoTask.get_obs (MujocoTask.set_new_state nq nv state) = state := by
  unfold MujocoTask.get_obs MujocoTask.set_new_state
  have hd : (state.drop nq).take nv = state.drop nq := by
    apply List.take_of_length_le
    simp [List.length_drop, h]
  rw [hd, List.take_append_drop]

/-- Witness for C7: the state [1, 2, 3, 4] with nq = nv = 2 round-trips
exactly. -/
theorem C7_set_state_roundtrip_witness :
    ([1, 2, 3, 4] : List ℚ).length = 2 + 2 ∧
    MujocoTask.get_obs (MujocoTask.set_new_state 2 2 [1, 2, 3, 4]) =
      [1, 2, 3, 4] :=
  ⟨by simp, C7_set_state_roundtrip 2 2 [1, 2, 3, 4] (by simp)⟩

/-- Reading an entry of a row of finite values yields the corresponding
rational, with the default 0 mapped across. -/
theorem getD_map_fin (l : List ℚ) (i : ℕ) :
    (l.map FP.fin).getD i (.fin 0) = .fin (l.getD i 0) := by
  simp only [List.getD_eq_getElem?_getD, List.getElem?_map]
  cases l[i]? <;> simp

/-- Reading an entry of a pointwise three-way zip under the index bound of all
three lists applies the function to the three entries. -/
theorem zipWith3_getD {α β γ δ : Type} (f : α → β → γ → δ)
    (as : List α) (bs : List β) (cs : List γ) (i : ℕ)
    (d : δ) (da : α) (db : β) (dc : γ)
    (ha : i < as.length) (hb : i < bs.length) (hc : i < cs.length) :
    (zipWith3 f as bs cs).getD i d =
      f (as.getD i da) (bs.getD i db) (cs.getD i dc) := by
  induction as generalizing bs cs i with
  | nil => simp at ha
  | cons x xs ih =>
    cases bs with
    | nil => simp at hb
    | cons y ys =>
      cases cs with
      | nil => simp at hc
      | cons z zs =>
        cases i with
        | zero => rfl
        | succ j =>
          simp only [zipWith3, List.getD_cons_succ]
          exact ih ys zs j (by simpa using ha) (by simpa using hb)
            (by simpa using hc)

/-- The extended sum of a list of finite values is the finite rational
sum. -/
theorem sumList_map_fin_aux (l : List ℚ) (c : ℚ) :
    (l.map FP.fin).foldl FP.add (.fin c) = .fin (l.foldl (· + ·) c) := by
  induction l generalizing c with
  | nil => rfl
  | cons x xs ih => exact ih (c + x)

/-- The extended sum of a list of finite values is the finite rational
sum. -/
theorem sumList_map_fin (l : List ℚ) :
    FP.sumList (l.map FP.fin) = .fin l.sum := by
  rw [FP.sumList, sumList_map_fin_aux, ← List.sum_eq_foldl]

/-- The ant per-row cost on an all-finite row is the finite value of the
rational reward formula. -/
theorem antCostRow_fin (dt : ℚ) (s a n : List ℚ) :
    antCostRow dt (s.map .fin) (a.map .fin) (n.map .fin) =
      .fin (-((n.getD 0 0 - s.getD 0 0) / dt -
        (1/2) * (a.map (fun x => x * x)).sum + 1)) := by
  unfold antCostRow
  rw [getD_map_fin, getD_map_fin]
  have hsq : (a.map FP.fin).map (fun x => x.mul x) =
      (a.map (fun x => x * x)).map FP.fin := by
    simp only [List.map_map]
    rfl
  rw [hsq, sumList_map_fin]
  show FP.fin (-(((n.getD 0 0) + -(s.getD 0 0)) / dt +
    -((1/2) * (a.map (fun x => x * x)).sum) + 1)) = _
  congr 1
  ring

/-- The ant per-row done indicator fires exactly when some entry of the
row is non-finite or the torso height entry lies outside [0.2, 1.0]. -/
theorem antDoneRow_eq (row : List FP) :
    antDoneRow row =
      if row.all FP.isFinite = false ∨
         FP.inIccB (row.getD 2 (.fin 0)) (1/5) 1 = false then 1 else 0 := by
  unfold antDoneRow
  cases hr : row.getD 2 (FP.fin 0) with
  | fin q =>
    cases hall : row.all FP.isFinite <;>
      simp [FP.geC, FP.leC, FP.inIccB]
    rcases le_or_lt (5⁻¹ : ℚ) q with h15 | h15
    · rcases le_or_lt q 1 with hq1 | hq1
      · simp [h15, hq1, hq1.not_lt]
      · simp [h15, hq1, hq1.not_le]
    · simp [h15, h15.not_le]
  | nan =>
    cases hall : row.all FP.isFinite <;> simp [FP.geC, FP.leC, FP.inIccB]
  | inf =>
    cases hall : row.all FP.isFinite <;> simp [FP.geC, FP.leC, FP.inIccB]
  | ninf =>
    cases hall : row.all FP.isFinite <;> simp [FP.geC, FP.leC, FP.inIccB]

/-- C4: the ant batched cost returns, per row, done [1] exactly when
some next-state entry is non-finite (NaN or an infinity) or the torso
height (column 2) lies outside [0.2, 1.0]; and on all-finite rows the
cost equals -((x_after - x_before) / dt - 0.5 * sum of squared action
entries + 1.0). -/
theorem C4_ant_cost_done (dt : ℚ) (state action next : List (List FP))
    (i : ℕ) (sq aq nq : List ℚ)
    (hs : i < state.length) (ha : i < action.length)
    (hn : i < next.length)
    (hsq : state.getD i [] = sq.map FP.fin)
    (haq : action.getD i [] = aq.map FP.fin)
    (hnq : next.getD i [] = nq.map FP.fin) :
    (AntTask.get_cost dt state action next).2 =
      next.map (fun row =>
        [if row.all FP.isFinite = false ∨
            FP.inIccB (row.getD 2 (.fin 0)) (1/5) 1 = false
         then (1 : ℚ) else 0]) ∧
    (AntTask.get_cost dt state action next).1.getD i (.fin 0) =
      .fin (-((nq.getD 0 0 - sq.getD 0 0) / dt -
        (1/2) * (aq.map (fun x => x * x)).sum + 1)) := by
  constructor
  · unfold AntTask.get_cost
    exact List.map_congr_left (fun row _ => by rw [antDoneRow_eq])
  · unfold AntTask.get_cost
    rw [zipWith3_getD (antCostRow dt) state action next i (.fin 0) [] [] []
      hs ha hn, hsq, haq, hnq, antCostRow_fin]

/-- Witness for C4: with dt = 1, a finite row with displacement 2 and
unit action gives cost -(2 - 0.5 + 1) = -2.5 and done 0, while a row
containing NaN gives done 1. -/
theorem C4_ant_cost_done_witness :
    (AntTask.get_cost 1 [[FP.fin 0], [FP.fin 0]] [[FP.fin 1], [FP.fin 0]]
      [[FP.fin 2, FP.fin 0, FP.fin (1/2)],
       [FP.nan, FP.fin 0, FP.fin (1/2)]]).2 = [[0], [1]] ∧
    (AntTask.get_cost 1 [[FP.fin 0], [FP.fin 0]] [[FP.fin 1], [FP.fin 0]]
      [[FP.fin 2, FP.fin 0, FP.fin (1/2)],
       [FP.nan, FP.fin 0, FP.fin (1/2)]]).1.getD 0 (.fin 0) =
      .fin (-(5/2)) := by
  obtain ⟨hdone, hcost⟩ :=
    C4_ant_cost_done 1 [[FP.fin 0], [FP.fin 0]] [[FP.fin 1], [FP.fin 0]]
      [[FP.fin 2, FP.fin 0, FP.fin (1/2)],
       [FP.nan, FP.fin 0, FP.fin (1/2)]]
      0 [0] [1] [2, 0, 1/2] (by norm_num) (by norm_num) (by norm_num)
      rfl rfl rfl
  constructor
  · rw [hdone]
    norm_num [FP.inIccB, FP.isFinite]
  · rw [hcost]
    norm_num
